import Mathlib

/-!
Shallow embedding of the dataset-analyzer pipeline (src/info.py):
load-time datetime coercion, column-type classification, and the
sidebar correlation-based column filter, together with proofs of the
spec-level properties of these components.
-/

namespace DatasetAnalyzer

/-- Storage dtypes that a loaded pandas column can carry, as far as the
classifier at lines 40-42 of src/info.py distinguishes them: numpy
number dtypes (split into int and float), object, datetime64, bool,
and a catch-all for any other storage type. -/
inductive Dtype where
  | intT
  | floatT
  | objectT
  | datetimeT
  | boolT
  | otherT
deriving DecidableEq, Repr

/-- A loaded column: header name, storage dtype, the numeric payload of
the column (a missing entry models NaN), and whether pd.to_datetime
would succeed on its values (the outcome of the external parse). -/
structure Col where
  name : String
  dtype : Dtype
  vals : List (Option ℚ)
  dtOk : Bool
deriving DecidableEq, Repr

/-- A loaded table. pd.read_csv and pd.read_excel mangle duplicate
headers at load time, so a loaded frame has pairwise distinct column
names. -/
structure Table where
  cols : List Col
  nodupNames : (cols.map Col.name).Nodup

/-- Is p a prefix of l (character lists)? -/
def chPre : List Char → List Char → Bool
  | [], _ => true
  | _ :: _, [] => false
  | a :: as, b :: bs => a == b && chPre as bs

/-- Does p occur as a contiguous substring of l? Models the Python
substring test with the in operator. -/
def chSub (p : List Char) : List Char → Bool
  | [] => chPre p []
  | b :: bs => chPre p (b :: bs) || chSub p bs

/-- The guard at line 33 of src/info.py: the lowered column name
contains the substring date or the substring time. -/
def nameHasDateTime (s : String) : Bool :=
  chSub "date".data s.toLower.data || chSub "time".data s.toLower.data

/-- One step of the load-time loop at lines 32-37: a column whose
header contains date or time (case-insensitively) is reinterpreted as
timestamps when pd.to_datetime succeeds on it; on failure the except
branch passes and the column is left untouched. Other columns are
never offered to the coercion. -/
def coerceCol (c : Col) : Col :=
  if nameHasDateTime c.name then
    if c.dtOk then { c with dtype := Dtype.datetimeT } else c
  else c

theorem coerceCol_name (c : Col) : (coerceCol c).name = c.name := by
  unfold coerceCol
  by_cases h : nameHasDateTime c.name <;> simp [h]
  by_cases h2 : c.dtOk <;> simp [h2]

/-- The whole coercion loop applied to a loaded table. -/
def coerceTable (t : Table) : Table :=
  ⟨t.cols.map coerceCol, by
    have h : (t.cols.map coerceCol).map Col.name = t.cols.map Col.name := by
      rw [List.map_map]
      exact List.map_congr_left fun c _ => coerceCol_name c
    rw [h]; exact t.nodupNames⟩

/-- Dtypes matched by select_dtypes(include=np.number): int and float
storage (bool is not an np.number as far as select_dtypes is
concerned). -/
def Dtype.isNumeric : Dtype → Bool
  | .intT => true
  | .floatT => true
  | _ => false

/-- Line 40: numeric_cols = df.select_dtypes(include=np.number).columns.tolist(). -/
def numeric_cols (t : Table) : List String :=
  (t.cols.filter fun c => c.dtype.isNumeric).map Col.name

/-- Line 41: the object-dtype columns. -/
def categorical_cols (t : Table) : List String :=
  (t.cols.filter fun c => c.dtype == Dtype.objectT).map Col.name

/-- Line 42: the datetime64 columns. -/
def datetime_cols (t : Table) : List String :=
  (t.cols.filter fun c => c.dtype == Dtype.datetimeT).map Col.name

/-- Rows in which both columns have a present value: the
pairwise-complete observations that pandas DataFrame.corr uses for one
entry of the correlation matrix. -/
def pairedVals : List (Option ℚ) → List (Option ℚ) → List (ℚ × ℚ)
  | [], _ => []
  | _ :: _, [] => []
  | x :: xs, y :: ys =>
    match x, y with
    | some a, some b => (a, b) :: pairedVals xs ys
    | _, _ => pairedVals xs ys

/-- Mean of the first coordinates of the paired observations. -/
def meanFst (ps : List (ℚ × ℚ)) : ℚ := (ps.map Prod.fst).sum / ps.length

/-- Mean of the second coordinates of the paired observations. -/
def meanSnd (ps : List (ℚ × ℚ)) : ℚ := (ps.map Prod.snd).sum / ps.length

/-- Centered cross moment of the paired observations (the numerator of
the Pearson coefficient, before division). -/
def covS (ps : List (ℚ × ℚ)) : ℚ :=
  (ps.map fun p => (p.1 - meanFst ps) * (p.2 - meanSnd ps)).sum

/-- Centered second moment of the first coordinate: the sum of squared
deviations, zero exactly for a zero-variance (or too short) sample. -/
def varFst (ps : List (ℚ × ℚ)) : ℚ :=
  (ps.map fun p => (p.1 - meanFst ps) ^ 2).sum

/-- Centered second moment of the second coordinate. -/
def varSnd (ps : List (ℚ × ℚ)) : ℚ :=
  (ps.map fun p => (p.2 - meanSnd ps) ^ 2).sum

/-- Pearson correlation of the paired observations, as pandas computes
one entry of df.corr(): covariance over the product of standard
deviations. The result none models the NaN produced when either
marginal has zero variance over the pairwise-complete rows (this
includes samples of fewer than two rows). -/
noncomputable def pearson (ps : List (ℚ × ℚ)) : Option ℝ :=
  if varFst ps = 0 ∨ varSnd ps = 0 then none
  else some ((covS ps : ℝ) / Real.sqrt ((varFst ps : ℝ) * (varSnd ps : ℝ)))

/-- Values of the column labelled n (df[n]); loaded column names are
unique, so find? picks the column. -/
def colVals (t : Table) (n : String) : List (Option ℚ) :=
  match t.cols.find? (fun c => c.name == n) with
  | some c => c.vals
  | none => []

/-- Entry (a, b) of corr_matrix = df[numeric_cols].corr() at line 68. -/
noncomputable def corrMatrix (t : Table) (a b : String) : Option ℝ :=
  pearson (pairedVals (colVals t a) (colVals t b))

/-- Decidable form of the comparison abs(corr_series) >= corr_threshold
at line 71: a NaN entry compares false; a defined entry is compared by
squaring, which avoids the square root. Proved equivalent to the
comparison of the Pearson value in absCorrGE_iff below. -/
def absCorrGE (ps : List (ℚ × ℚ)) (th : ℚ) : Bool :=
  decide (varFst ps ≠ 0) && decide (varSnd ps ≠ 0) &&
    decide (th ^ 2 * (varFst ps * varSnd ps) ≤ covS ps ^ 2)

/-- Index of corr_series = corr_matrix[corr_base_col].drop(corr_base_col)
at line 70: the numeric columns with the base label dropped. -/
def corrSeriesIdx (t : Table) (base : String) : List String :=
  (numeric_cols t).filter fun c => c ≠ base

/-- Line 71: the labels of the entries of corr_series whose absolute
value meets the threshold. -/
def selectedCorrCols (t : Table) (base : String) (th : ℚ) : List String :=
  (corrSeriesIdx t base).filter fun c =>
    absCorrGE (pairedVals (colVals t c) (colVals t base)) th

/-- Line 72: selected_columns = [corr_base_col] + selected_corr_cols. -/
def selectedColumns (t : Table) (base : String) (th : ℚ) : List String :=
  base :: selectedCorrCols t base th

/-- The sidebar correlation filter, lines 64-73: when the numeric set
is empty the block does not run; when the base label is present in the
columns of the correlation matrix (which are the numeric columns), the
numeric list is replaced by
list(set(numeric_cols).intersection(selected_columns)). A Python set
iterates in arbitrary order; the embedding fixes the order of the
deduplicated numeric list, which has the same members. -/
def filteredNumeric (t : Table) (base : String) (th : ℚ) : List String :=
  if (numeric_cols t).isEmpty then numeric_cols t
  else if base ∈ numeric_cols t then
    (numeric_cols t).dedup.filter fun c => c ∈ selectedColumns t base th
  else numeric_cols t

/-- Classification sets computed for a successfully loaded table,
after the load-time coercion loop. -/
def classifySets (t : Table) : List String × List String × List String :=
  let t2 := coerceTable t
  (numeric_cols t2, categorical_cols t2, datetime_cols t2)

/-- Top-level control flow around the file parse (lines 24-42). The
parse itself is external (pd.read_csv / pd.read_excel), so its outcome
is a parameter; on failure the app shows the error message with its
underlying cause and stops (st.stop), so no table and no
classification sets are produced. -/
def processUpload (r : Except String Table) :
    Except String (List String × List String × List String) :=
  match r with
  | Except.error e => Except.error ("Failed to load file: " ++ e)
  | Except.ok t => Except.ok (classifySets t)

/-! Helper lemmas about the correlation kernel. -/

theorem varFst_nonneg (ps : List (ℚ × ℚ)) : 0 ≤ varFst ps :=
  List.sum_nonneg (by
    intro x hx
    obtain ⟨p, _, rfl⟩ := List.mem_map.1 hx
    positivity)

theorem varSnd_nonneg (ps : List (ℚ × ℚ)) : 0 ≤ varSnd ps :=
  List.sum_nonneg (by
    intro x hx
    obtain ⟨p, _, rfl⟩ := List.mem_map.1 hx
    positivity)

theorem list_inner_sq_le {α : Type} (l : List α) (f g : α → ℚ) :
    ((l.map fun x => f x * g x).sum) ^ 2 ≤
      ((l.map fun x => f x ^ 2).sum) * ((l.map fun x => g x ^ 2).sum) := by
  have key : ∀ h : α → ℚ, (l.map h).sum = ∑ i : Fin l.length, h (l.get i) := by
    intro h
    conv_lhs => rw [← List.ofFn_get l]
    rw [List.map_ofFn, Fin.sum_ofFn]
    simp [Function.comp]
  rw [key, key, key]
  exact Finset.sum_mul_sq_le_sq_mul_sq Finset.univ _ _

/-- Cauchy-Schwarz for the centered moments: the squared cross moment
is bounded by the product of the marginal second moments. -/
theorem covS_sq_le (ps : List (ℚ × ℚ)) : covS ps ^ 2 ≤ varFst ps * varSnd ps :=
  list_inner_sq_le ps (fun p => p.1 - meanFst ps) (fun p => p.2 - meanSnd ps)

/-- The squared decidable comparison agrees with the comparison of the
absolute Pearson value against a nonnegative threshold; in particular a
NaN entry never meets any threshold. -/
theorem absCorrGE_iff (ps : List (ℚ × ℚ)) (th : ℚ) (h0 : 0 ≤ th) :
    absCorrGE ps th = true ↔
      ∃ r : ℝ, pearson ps = some r ∧ (th : ℝ) ≤ |r| := by
  unfold absCorrGE pearson
  by_cases hx : varFst ps = 0
  · simp [hx]
  by_cases hy : varSnd ps = 0
  · simp [hx, hy]
  have hxpos : 0 < varFst ps := lt_of_le_of_ne (varFst_nonneg ps) (Ne.symm hx)
  have hypos : 0 < varSnd ps := lt_of_le_of_ne (varSnd_nonneg ps) (Ne.symm hy)
  have hD : (0 : ℝ) < (varFst ps : ℝ) * (varSnd ps : ℝ) := by
    apply mul_pos <;> exact_mod_cast ‹_›
  have hsqrt : (0 : ℝ) < Real.sqrt ((varFst ps : ℝ) * (varSnd ps : ℝ)) :=
    Real.sqrt_pos.2 hD
  rw [if_neg (by tauto)]
  constructor
  · intro h
    simp only [Bool.and_eq_true, decide_eq_true_eq] at h
    obtain ⟨⟨-, -⟩, hle⟩ := h
    refine ⟨_, rfl, ?_⟩
    rw [abs_div, abs_of_nonneg (Real.sqrt_nonneg _), le_div_iff₀ hsqrt]
    have h2 : (th * Real.sqrt ((varFst ps : ℝ) * (varSnd ps : ℝ))) ^ 2 ≤
        |(covS ps : ℝ)| ^ 2 := by
      rw [mul_pow, Real.sq_sqrt hD.le, sq_abs]
      exact_mod_cast hle
    have h3 : (0 : ℝ) ≤ th * Real.sqrt ((varFst ps : ℝ) * (varSnd ps : ℝ)) :=
      mul_nonneg (by exact_mod_cast h0) (Real.sqrt_nonneg _)
    exact (pow_le_pow_iff_left₀ h3 (abs_nonneg _) two_ne_zero).1 h2
  · rintro ⟨r, hr, hler⟩
    obtain rfl : r = (covS ps : ℝ) / Real.sqrt ((varFst ps : ℝ) * (varSnd ps : ℝ)) :=
      (Option.some_injective _ hr).symm
    simp only [Bool.and_eq_true, decide_eq_true_eq]
    refine ⟨⟨hx, hy⟩, ?_⟩
    rw [abs_div, abs_of_nonneg (Real.sqrt_nonneg _), le_div_iff₀ hsqrt] at hler
    have h2 : (th * Real.sqrt ((varFst ps : ℝ) * (varSnd ps : ℝ))) ^ 2 ≤
        |(covS ps : ℝ)| ^ 2 :=
      pow_le_pow_left₀ (mul_nonneg (by exact_mod_cast h0) (Real.sqrt_nonneg _)) hler 2
    rw [mul_pow, Real.sq_sqrt hD.le, sq_abs] at h2
    exact_mod_cast h2

/-- Membership characterization of the filter result when the base is a
numeric column: a column survives exactly when it is numeric and is
either the base itself or a distinct column whose comparison against
the threshold succeeds. -/
theorem mem_filteredNumeric (t : Table) (base : String) (th : ℚ)
    (hbase : base ∈ numeric_cols t) (c : String) :
    c ∈ filteredNumeric t base th ↔
      c ∈ numeric_cols t ∧
        (c = base ∨ (c ≠ base ∧
          absCorrGE (pairedVals (colVals t c) (colVals t base)) th = true)) := by
  unfold filteredNumeric
  have hne : ¬((numeric_cols t).isEmpty = true) := by
    rcases h : numeric_cols t with _ | ⟨a, l⟩
    · rw [h] at hbase; cases hbase
    · simp
  rw [if_neg hne, if_pos hbase]
  constructor
  · intro h
    rcases List.mem_filter.1 h with ⟨hcdedup, hsel⟩
    have hc : c ∈ numeric_cols t := List.mem_dedup.1 hcdedup
    have hsel2 : c ∈ selectedColumns t base th := by simpa using hsel
    refine ⟨hc, ?_⟩
    rcases List.mem_cons.1 hsel2 with rfl | hmem
    · exact Or.inl rfl
    · unfold selectedCorrCols corrSeriesIdx at hmem
      rcases List.mem_filter.1 hmem with ⟨hidx, habs⟩
      rcases List.mem_filter.1 hidx with ⟨-, hne2⟩
      exact Or.inr ⟨by simpa using hne2, habs⟩
  · rintro ⟨hc, hor⟩
    apply List.mem_filter.2
    refine ⟨List.mem_dedup.2 hc, ?_⟩
    rcases hor with rfl | ⟨hne2, habs⟩
    · simp [selectedColumns]
    · simp only [decide_eq_true_eq, selectedColumns, List.mem_cons]
      refine Or.inr ?_
      unfold selectedCorrCols corrSeriesIdx
      exact List.mem_filter.2 ⟨List.mem_filter.2 ⟨hc, by simpa using hne2⟩, habs⟩

/-- Column names determine columns inside a loaded table, since loaded
headers are pairwise distinct. -/
theorem name_inj (t : Table) {c1 c2 : Col} (h1 : c1 ∈ t.cols) (h2 : c2 ∈ t.cols)
    (h : c1.name = c2.name) : c1 = c2 :=
  List.inj_on_of_nodup_map t.nodupNames h1 h2 h

/-- Membership in one classification list. -/
theorem mem_typeList {p : Col → Bool} {t : Table} {n : String} :
    n ∈ (t.cols.filter p).map Col.name ↔
      ∃ c, c ∈ t.cols ∧ p c = true ∧ c.name = n := by
  simp only [List.mem_map, List.mem_filter]
  constructor
  · rintro ⟨c, ⟨hc, hp⟩, rfl⟩
    exact ⟨c, hc, hp, rfl⟩
  · rintro ⟨c, hc, hp, rfl⟩
    exact ⟨c, ⟨hc, hp⟩, rfl⟩

/-! Symmetry of the correlation kernel. -/

theorem pairedVals_swap (xs ys : List (Option ℚ)) :
    pairedVals ys xs = (pairedVals xs ys).map Prod.swap := by
  induction xs generalizing ys with
  | nil => cases ys <;> simp [pairedVals]
  | cons x xs ih =>
    cases ys with
    | nil => simp [pairedVals]
    | cons y ys =>
      cases x <;> cases y <;> simp [pairedVals, ih]

theorem meanFst_swap (ps : List (ℚ × ℚ)) : meanFst (ps.map Prod.swap) = meanSnd ps := by
  unfold meanFst meanSnd
  rw [List.map_map, List.length_map]
  rfl

theorem meanSnd_swap (ps : List (ℚ × ℚ)) : meanSnd (ps.map Prod.swap) = meanFst ps := by
  unfold meanFst meanSnd
  rw [List.map_map, List.length_map]
  rfl

theorem covS_swap (ps : List (ℚ × ℚ)) : covS (ps.map Prod.swap) = covS ps := by
  unfold covS
  rw [meanFst_swap, meanSnd_swap, List.map_map]
  refine congrArg List.sum (List.map_congr_left fun p _ => ?_)
  show (p.2 - meanSnd ps) * (p.1 - meanFst ps) = _
  ring

theorem varFst_swap (ps : List (ℚ × ℚ)) : varFst (ps.map Prod.swap) = varSnd ps := by
  unfold varFst varSnd
  rw [meanFst_swap, List.map_map]
  rfl

theorem varSnd_swap (ps : List (ℚ × ℚ)) : varSnd (ps.map Prod.swap) = varFst ps := by
  unfold varFst varSnd
  rw [meanSnd_swap, List.map_map]
  rfl

theorem pearson_swap (ps : List (ℚ × ℚ)) : pearson (ps.map Prod.swap) = pearson ps := by
  unfold pearson
  rw [covS_swap, varFst_swap, varSnd_swap]
  by_cases hx : varFst ps = 0 <;> by_cases hy : varSnd ps = 0 <;>
    simp [hx, hy, mul_comm]

/-! The diagonal of the correlation matrix. -/

theorem pairedVals_self_diag (xs : List (Option ℚ)) :
    ∀ p ∈ pairedVals xs xs, p.1 = p.2 := by
  induction xs with
  | nil => simp [pairedVals]
  | cons x xs ih =>
    cases x with
    | none => simpa [pairedVals] using ih
    | some a =>
      intro p hp
      rcases List.mem_cons.1 (by simpa [pairedVals] using hp) with rfl | hmem
      · rfl
      · exact ih p hmem

theorem meanFst_eq_meanSnd_of_diag (ps : List (ℚ × ℚ)) (h : ∀ p ∈ ps, p.1 = p.2) :
    meanFst ps = meanSnd ps := by
  unfold meanFst meanSnd
  rw [show ps.map Prod.fst = ps.map Prod.snd from List.map_congr_left h]

theorem covS_eq_varFst_of_diag (ps : List (ℚ × ℚ)) (h : ∀ p ∈ ps, p.1 = p.2) :
    covS ps = varFst ps := by
  unfold covS varFst
  refine congrArg List.sum (List.map_congr_left fun p hp => ?_)
  rw [← meanFst_eq_meanSnd_of_diag ps h, ← h p hp]
  ring

theorem varSnd_eq_varFst_of_diag (ps : List (ℚ × ℚ)) (h : ∀ p ∈ ps, p.1 = p.2) :
    varSnd ps = varFst ps := by
  unfold varSnd varFst
  refine congrArg List.sum (List.map_congr_left fun p hp => ?_)
  rw [← meanFst_eq_meanSnd_of_diag ps h, ← h p hp]

theorem pearson_self (xs : List (Option ℚ))
    (hv : varFst (pairedVals xs xs) ≠ 0) :
    pearson (pairedVals xs xs) = some 1 := by
  have hdiag := pairedVals_self_diag xs
  have hcv : covS (pairedVals xs xs) = varFst (pairedVals xs xs) :=
    covS_eq_varFst_of_diag _ hdiag
  have hvv : varSnd (pairedVals xs xs) = varFst (pairedVals xs xs) :=
    varSnd_eq_varFst_of_diag _ hdiag
  have hpos : 0 < varFst (pairedVals xs xs) :=
    lt_of_le_of_ne (varFst_nonneg _) (Ne.symm hv)
  unfold pearson
  rw [if_neg (by simp [hv, hvv])]
  congr 1
  rw [hcv, hvv]
  have hR : (0:ℝ) < (varFst (pairedVals xs xs) : ℝ) := by exact_mod_cast hpos
  rw [Real.sqrt_mul_self hR.le]
  exact div_self (ne_of_gt hR)

/-! Concrete sample data used by the witnesses. -/

/-- An integer column x with values 1, 2, 3. -/
def colX : Col := ⟨"x", Dtype.intT, [some 1, some 2, some 3], false⟩

/-- A float column y with values 2, 4, 8. -/
def colY : Col := ⟨"y", Dtype.floatT, [some 2, some 4, some 8], false⟩

/-- A zero-variance float column z. -/
def colZ : Col := ⟨"z", Dtype.floatT, [some 5, some 5, some 5], false⟩

/-- A text column. -/
def colCity : Col := ⟨"city", Dtype.objectT, [], false⟩

/-- A boolean column, not classified by the type classifier. -/
def colFlag : Col := ⟨"flag", Dtype.boolT, [], false⟩

/-- A sample loaded table mixing the dtypes. -/
def sampleTable : Table := ⟨[colX, colY, colZ, colCity, colFlag], by decide⟩

/-- A table whose numeric set is the single column a. -/
def singleNumTable : Table :=
  ⟨[⟨"a", Dtype.intT, [some 1, some 2], false⟩, ⟨"city", Dtype.objectT, [], false⟩],
    by decide⟩

/-! Claim theorems. -/

/-- Claim C1: for every numeric column set, base column belonging to it
and threshold in [0, 1], the correlation filter returns exactly the set
consisting of the base column together with every other numeric column
whose absolute Pearson correlation with the base is at least the
threshold, intersected with the original numeric set. -/
theorem corr_filter_exact_set (t : Table) (base : String) (th : ℚ)
    (hbase : base ∈ numeric_cols t) (h0 : 0 ≤ th) (h1 : th ≤ 1) (c : String) :
    c ∈ filteredNumeric t base th ↔
      c ∈ numeric_cols t ∧
        (c = base ∨ (c ≠ base ∧
          ∃ r : ℝ, corrMatrix t c base = some r ∧ (th : ℝ) ≤ |r|)) := by
  rw [mem_filteredNumeric t base th hbase c]
  have hiff := absCorrGE_iff (pairedVals (colVals t c) (colVals t base)) th h0
  unfold corrMatrix
  constructor
  · rintro ⟨hc, hor⟩
    refine ⟨hc, ?_⟩
    rcases hor with rfl | ⟨hne2, habs⟩
    · exact Or.inl rfl
    · exact Or.inr ⟨hne2, hiff.1 habs⟩
  · rintro ⟨hc, hor⟩
    refine ⟨hc, ?_⟩
    rcases hor with rfl | ⟨hne2, hex⟩
    · exact Or.inl rfl
    · exact Or.inr ⟨hne2, hiff.2 hex⟩

/-- Witness for claim C1 at a concrete table, base x, threshold 1/2,
probe column y. -/
theorem corr_filter_exact_set_witness :
    "y" ∈ filteredNumeric sampleTable "x" (1/2) ↔
      "y" ∈ numeric_cols sampleTable ∧
        ("y" = "x" ∨ ("y" ≠ "x" ∧
          ∃ r : ℝ, corrMatrix sampleTable "y" "x" = some r ∧
            ((1/2 : ℚ) : ℝ) ≤ |r|)) :=
  corr_filter_exact_set sampleTable "x" (1/2) (by decide) (by norm_num)
    (by norm_num) "y"

/-- Columns carrying two classifying predicates at the same name. -/
theorem dtype_unique (t : Table) {n : String} {p q : Col → Bool}
    (hp : n ∈ (t.cols.filter p).map Col.name)
    (hq : n ∈ (t.cols.filter q).map Col.name) :
    ∃ c, c ∈ t.cols ∧ p c = true ∧ q c = true := by
  obtain ⟨c1, hc1, hp1, hn1⟩ := mem_typeList.1 hp
  obtain ⟨c2, hc2, hp2, hn2⟩ := mem_typeList.1 hq
  obtain rfl := name_inj t hc1 hc2 (hn1.trans hn2.symm)
  exact ⟨c1, hc1, hp1, hp2⟩

/-- Claim C2: for any table, the numeric, categorical and datetime
classification sets are pairwise disjoint, and their union is contained
in the set of the column names of the table. -/
theorem classifier_disjoint_and_subset (t : Table) :
    (∀ c, c ∈ numeric_cols t → c ∉ categorical_cols t) ∧
    (∀ c, c ∈ numeric_cols t → c ∉ datetime_cols t) ∧
    (∀ c, c ∈ categorical_cols t → c ∉ datetime_cols t) ∧
    (∀ c, c ∈ numeric_cols t ∨ c ∈ categorical_cols t ∨ c ∈ datetime_cols t →
      c ∈ t.cols.map Col.name) := by
  refine ⟨?_, ?_, ?_, ?_⟩
  · intro c h1 h2
    obtain ⟨col, -, ha, hb⟩ := dtype_unique t h1 h2
    rcases h : col.dtype <;> simp [h, Dtype.isNumeric] at ha hb
  · intro c h1 h2
    obtain ⟨col, -, ha, hb⟩ := dtype_unique t h1 h2
    rcases h : col.dtype <;> simp [h, Dtype.isNumeric] at ha hb
  · intro c h1 h2
    obtain ⟨col, -, ha, hb⟩ := dtype_unique t h1 h2
    rcases h : col.dtype <;> simp [h] at ha hb
  · intro c hor
    rcases hor with h | h | h <;>
      · obtain ⟨col, hcol, -, hn⟩ := mem_typeList.1 h
        exact List.mem_map.2 ⟨col, hcol, hn⟩

/-- Witness for claim C2: in the sample table the numeric column x is
not classified as categorical. -/
theorem classifier_disjoint_and_subset_witness :
    "x" ∉ categorical_cols sampleTable :=
  (classifier_disjoint_and_subset sampleTable).1 "x" (by decide)

/-- Claim C3: for every non-empty numeric column set, base column in
the set and threshold in [0, 1], the filtered set contains the base
column. -/
theorem corr_filter_contains_base (t : Table) (base : String) (th : ℚ)
    (hne : numeric_cols t ≠ []) (hbase : base ∈ numeric_cols t)
    (h0 : 0 ≤ th) (h1 : th ≤ 1) :
    base ∈ filteredNumeric t base th :=
  (mem_filteredNumeric t base th hbase base).2 ⟨hbase, Or.inl rfl⟩

/-- Witness for claim C3 at the sample table with threshold 3/10. -/
theorem corr_filter_contains_base_witness :
    "x" ∈ filteredNumeric sampleTable "x" (3/10) :=
  corr_filter_contains_base sampleTable "x" (3/10) (by decide) (by decide)
    (by norm_num) (by norm_num)

/-- Claim C4: with threshold 0 the filtered set contains every numeric
column whose correlation with the base is defined; with threshold 1 the
filtered set contains, besides the base, only columns whose absolute
correlation with the base is exactly 1. -/
theorem corr_filter_extreme_thresholds (t : Table) (base : String)
    (hbase : base ∈ numeric_cols t) :
    (∀ c, c ∈ numeric_cols t → (∃ r : ℝ, corrMatrix t c base = some r) →
      c ∈ filteredNumeric t base 0) ∧
    (∀ c, c ∈ filteredNumeric t base 1 → c ≠ base →
      ∃ r : ℝ, corrMatrix t c base = some r ∧ |r| = 1) := by
  constructor
  · intro c hc hr
    rcases eq_or_ne c base with rfl | hne2
    · exact (mem_filteredNumeric t c 0 hbase c).2 ⟨hc, Or.inl rfl⟩
    · refine (mem_filteredNumeric t base 0 hbase c).2 ⟨hc, Or.inr ⟨hne2, ?_⟩⟩
      refine (absCorrGE_iff _ 0 le_rfl).2 ?_
      obtain ⟨r, hr⟩ := hr
      exact ⟨r, hr, by exact_mod_cast abs_nonneg r⟩
  · intro c hcf hne2
    rcases (mem_filteredNumeric t base 1 hbase c).1 hcf with ⟨-, rfl | ⟨-, habs⟩⟩
    · exact absurd rfl hne2
    · simp only [absCorrGE, Bool.and_eq_true, decide_eq_true_eq] at habs
      obtain ⟨⟨hx, hy⟩, hle⟩ := habs
      have hcs := covS_sq_le (pairedVals (colVals t c) (colVals t base))
      have heq : covS (pairedVals (colVals t c) (colVals t base)) ^ 2 =
          varFst (pairedVals (colVals t c) (colVals t base)) *
            varSnd (pairedVals (colVals t c) (colVals t base)) :=
        le_antisymm hcs (by simpa using hle)
      have hxpos : 0 < varFst (pairedVals (colVals t c) (colVals t base)) :=
        lt_of_le_of_ne (varFst_nonneg _) (Ne.symm hx)
      have hypos : 0 < varSnd (pairedVals (colVals t c) (colVals t base)) :=
        lt_of_le_of_ne (varSnd_nonneg _) (Ne.symm hy)
      have hD : (0:ℝ) <
          (varFst (pairedVals (colVals t c) (colVals t base)) : ℝ) *
            (varSnd (pairedVals (colVals t c) (colVals t base)) : ℝ) :=
        mul_pos (by exact_mod_cast hxpos) (by exact_mod_cast hypos)
      refine ⟨(covS (pairedVals (colVals t c) (colVals t base)) : ℝ) /
          Real.sqrt
            ((varFst (pairedVals (colVals t c) (colVals t base)) : ℝ) *
              (varSnd (pairedVals (colVals t c) (colVals t base)) : ℝ)), ?_, ?_⟩
      · unfold corrMatrix pearson
        exact if_neg (by tauto)
      · have hnum : ((covS (pairedVals (colVals t c) (colVals t base)) : ℝ)) ^ 2 =
            (varFst (pairedVals (colVals t c) (colVals t base)) : ℝ) *
              (varSnd (pairedVals (colVals t c) (colVals t base)) : ℝ) := by
          exact_mod_cast heq
        rw [abs_div, abs_of_nonneg (Real.sqrt_nonneg _),
          div_eq_one_iff_eq (ne_of_gt (Real.sqrt_pos.2 hD)), ← hnum,
          Real.sqrt_sq_eq_abs]

/-- Witness for claim C4: in the sample table, y has a defined
correlation with x, so it survives the threshold-0 filter. -/
theorem corr_filter_extreme_thresholds_witness :
    "y" ∈ filteredNumeric sampleTable "x" 0 := by
  have hvx : varFst (pairedVals (colVals sampleTable "y") (colVals sampleTable "x")) ≠ 0 := by
    show varFst (pairedVals [some 2, some 4, some 8] [some 1, some 2, some 3]) ≠ 0
    simp [varFst, meanFst, pairedVals]
    norm_num
  have hvy : varSnd (pairedVals (colVals sampleTable "y") (colVals sampleTable "x")) ≠ 0 := by
    show varSnd (pairedVals [some 2, some 4, some 8] [some 1, some 2, some 3]) ≠ 0
    simp [varSnd, meanSnd, pairedVals]
    norm_num
  exact (corr_filter_extreme_thresholds sampleTable "x" (by decide)).1 "y"
    (by decide) ⟨_, by unfold corrMatrix pearson; exact if_neg (not_or.2 ⟨hvx, hvy⟩)⟩

/-- Claim C5: a singleton numeric set makes the filter return exactly
the base column for every threshold, and an empty numeric set makes it
a no-op returning the empty set. -/
theorem corr_filter_degenerate (t : Table) (base : String) (th : ℚ)
    (h0 : 0 ≤ th) (h1 : th ≤ 1) :
    (numeric_cols t = [base] → filteredNumeric t base th = [base]) ∧
    (numeric_cols t = [] → filteredNumeric t base th = []) := by
  constructor
  · intro h
    unfold filteredNumeric
    rw [h]
    simp [selectedColumns]
  · intro h
    unfold filteredNumeric
    rw [h]
    simp

/-- Witness for claim C5 on a table whose numeric set is the single
column a. -/
theorem corr_filter_degenerate_witness :
    filteredNumeric singleNumTable "a" (1/2) = ["a"] :=
  (corr_filter_degenerate singleNumTable "a" (1/2) (by norm_num) (by norm_num)).1
    (by decide)

/-- Claim C6: the pairwise Pearson correlation matrix over the numeric
columns is symmetric, and its diagonal entry at any numeric column with
nonzero variance equals 1. -/
theorem corr_matrix_symm_unit_diag (t : Table) :
    (∀ a, a ∈ numeric_cols t → ∀ b, b ∈ numeric_cols t →
      corrMatrix t a b = corrMatrix t b a) ∧
    (∀ a, a ∈ numeric_cols t →
      varFst (pairedVals (colVals t a) (colVals t a)) ≠ 0 →
      corrMatrix t a a = some 1) := by
  constructor
  · intro a _ b _
    unfold corrMatrix
    rw [pairedVals_swap (colVals t a) (colVals t b), pearson_swap]
  · intro a _ hv
    unfold corrMatrix
    exact pearson_self (colVals t a) hv

/-- Witness for claim C6: the diagonal entry at the sample column x,
which has nonzero variance, is 1. -/
theorem corr_matrix_symm_unit_diag_witness :
    corrMatrix sampleTable "x" "x" = some 1 := by
  have hv : varFst (pairedVals (colVals sampleTable "x") (colVals sampleTable "x")) ≠ 0 := by
    show varFst (pairedVals [some 1, some 2, some 3] [some 1, some 2, some 3]) ≠ 0
    simp [varFst, meanFst, pairedVals]
    norm_num
  exact (corr_matrix_symm_unit_diag sampleTable).2 "x" (by decide) hv

theorem coerceCol_vals (c : Col) : (coerceCol c).vals = c.vals := by
  unfold coerceCol
  by_cases h : nameHasDateTime c.name <;> simp [h]
  by_cases h2 : c.dtOk <;> simp [h2]

theorem coerceCol_dtOk (c : Col) : (coerceCol c).dtOk = c.dtOk := by
  unfold coerceCol
  by_cases h : nameHasDateTime c.name <;> simp [h]
  by_cases h2 : c.dtOk <;> simp [h2]

theorem coerceCol_dtype (c : Col) :
    (coerceCol c).dtype =
      (if nameHasDateTime c.name then
        (if c.dtOk then Dtype.datetimeT else c.dtype)
      else c.dtype) := by
  unfold coerceCol
  by_cases h : nameHasDateTime c.name <;> simp [h]
  by_cases h2 : c.dtOk <;> simp [h2]

/-- Claim C7: datetime coercion touches exactly the columns whose name
contains date or time case-insensitively; such a column becomes
datetime-typed when the coercion succeeds and keeps its original
storage type when it fails, with no error raised (the coerced table is
always produced and all other fields are preserved), so a failed
coercion leaves the column classified by its original type. -/
theorem datetime_coercion_behavior (t : Table) (i : ℕ) (c : Col)
    (h : t.cols[i]? = some c) :
    ∃ c2, (coerceTable t).cols[i]? = some c2 ∧ c2.name = c.name ∧
      c2.vals = c.vals ∧ c2.dtOk = c.dtOk ∧
      c2.dtype =
        (if nameHasDateTime c.name then
          (if c.dtOk then Dtype.datetimeT else c.dtype)
        else c.dtype) := by
  refine ⟨coerceCol c, ?_, coerceCol_name c, coerceCol_vals c, coerceCol_dtOk c,
    coerceCol_dtype c⟩
  show (t.cols.map coerceCol)[i]? = some (coerceCol c)
  rw [List.getElem?_map, h]
  rfl

/-- A date-named text column on which the external timestamp parse
fails. -/
def rawDateCol : Col := ⟨"Listed_Date", Dtype.objectT, [], false⟩

/-- A one-column table holding the unparseable date column. -/
def dateTable : Table := ⟨[rawDateCol], by decide⟩

/-- Witness for claim C7: the failed coercion of the date-named column
leaves the table produced and the column with its original object
dtype. -/
theorem datetime_coercion_behavior_witness :
    ∃ c2, (coerceTable dateTable).cols[0]? = some c2 ∧
      c2.name = rawDateCol.name ∧ c2.vals = rawDateCol.vals ∧
      c2.dtOk = rawDateCol.dtOk ∧
      c2.dtype =
        (if nameHasDateTime rawDateCol.name then
          (if rawDateCol.dtOk then Dtype.datetimeT else rawDateCol.dtype)
        else rawDateCol.dtype) :=
  datetime_coercion_behavior dateTable 0 rawDateCol rfl

/-- Claim C8: when the uploaded file cannot be parsed, a load error
carrying the underlying cause is reported and processing halts: no
table is processed and no classification sets are produced. -/
theorem load_error_halts (e : String) :
    processUpload (Except.error e) =
      Except.error ("Failed to load file: " ++ e) ∧
    (processUpload (Except.error e)).toOption = none :=
  ⟨rfl, rfl⟩

/-- Claim C9: a column whose storage type is boolean or any other type
that is not integer, float, object or datetime is excluded from all
three classification sets. -/
theorem unsupported_dtype_unclassified (t : Table) (c : Col) (hc : c ∈ t.cols)
    (hd : c.dtype = Dtype.boolT ∨ c.dtype = Dtype.otherT) :
    c.name ∉ numeric_cols t ∧ c.name ∉ categorical_cols t ∧
      c.name ∉ datetime_cols t := by
  refine ⟨?_, ?_, ?_⟩ <;> intro hmem <;>
    · obtain ⟨c2, hc2, hp, hn⟩ := mem_typeList.1 hmem
      obtain rfl := name_inj t hc2 hc hn
      rcases hd with h | h <;> simp [h, Dtype.isNumeric] at hp

/-- Witness for claim C9: the boolean column of the sample table is in
none of the three sets. -/
theorem unsupported_dtype_unclassified_witness :
    colFlag.name ∉ numeric_cols sampleTable ∧
      colFlag.name ∉ categorical_cols sampleTable ∧
      colFlag.name ∉ datetime_cols sampleTable :=
  unsupported_dtype_unclassified sampleTable colFlag (by decide) (Or.inl rfl)

/-- Claim C10: a numeric column whose correlation with the base is
undefined (NaN, e.g. a zero-variance column) is excluded from the
filtered set at every threshold of the slider range, including
threshold 0. -/
theorem undefined_corr_excluded (t : Table) (base : String) (th : ℚ)
    (hbase : base ∈ numeric_cols t) (c : String) (hcb : c ≠ base)
    (hnan : corrMatrix t c base = none) (h0 : 0 ≤ th) (h1 : th ≤ 1) :
    c ∉ filteredNumeric t base th := by
  intro hmem
  rcases (mem_filteredNumeric t base th hbase c).1 hmem with ⟨-, rfl | ⟨-, habs⟩⟩
  · exact hcb rfl
  · obtain ⟨r, hr, -⟩ := (absCorrGE_iff _ th h0).1 habs
    unfold corrMatrix at hnan
    rw [hnan] at hr
    cases hr

/-- Witness for claim C10: the zero-variance column z has an undefined
correlation with x and is dropped even at threshold 0. -/
theorem undefined_corr_excluded_witness :
    "z" ∉ filteredNumeric sampleTable "x" 0 := by
  have hz : varFst (pairedVals (colVals sampleTable "z") (colVals sampleTable "x")) = 0 := by
    show varFst (pairedVals [some 5, some 5, some 5] [some 1, some 2, some 3]) = 0
    simp [varFst, meanFst, pairedVals]
    norm_num
  have hnan : corrMatrix sampleTable "z" "x" = none := by
    unfold corrMatrix pearson
    exact if_pos (Or.inl hz)
  exact undefined_corr_excluded sampleTable "x" 0 (by decide) "z" (by decide)
    hnan le_rfl zero_le_one

end DatasetAnalyzer
